import Mathlib

/-!
Verification of the minishell variable store (src/vars.c) and builtin layer
(src/builtins.c), as a shallow embedding in Lean 4.

Conventions of the embedding:
* C strings are Lean `String`s (no interior NUL; where a claim depends on
  that, the NUL-freeness is an explicit hypothesis).
* The process environment is an association list `List (String × String)`;
  `getenv` returns the first binding, `setenv` with overwrite replaces the
  first binding in place, `unsetenv` drops all bindings of the name.
* The private variable table `var_list` is a `List Var`, head = most recently
  prepended (new_var pushes at the head, as in the C list insertion).
* Fallible environment mutation (`setenv`) is modelled by an explicit
  `envOk : Bool` argument of each operation that performs at most one
  `setenv` call: `envOk = true` means that call succeeds, `false` that it
  fails leaving the environment unchanged.  Allocation (`malloc`/`strdup`)
  is assumed to succeed.
* `chdir` may fail; its Boolean outcome `chdirOk` is passed to `builtin_cd`,
  which (like the C source) ignores it.
* Process termination (`bigshell_exit`) and the job-control facade
  (`jobs_get_joblist`, `jobs_get_pgid`, `wait_on_fg_job`) are external
  interfaces; they are modelled as data passed in (an `ExitOutcome`
  constructor, a `JobsFacade` structure).
* Debug logging (`gprintf`) produces no observable output and is omitted.
  Diagnostics written with `dprintf(get_pseudo_fd(...), ...)` are recorded
  as `(resolved fd, message)` pairs.
-/

/-! ### ctype.h model (C locale, ASCII) -/

def c_isalpha (c : Char) : Bool :=
  ('A' ≤ c && c ≤ 'Z') || ('a' ≤ c && c ≤ 'z')

def c_isdigit (c : Char) : Bool :=
  '0' ≤ c && c ≤ '9'

def c_isalnum (c : Char) : Bool :=
  c_isalpha c || c_isdigit c

def c_isspace (c : Char) : Bool :=
  c == ' ' || c == '\t' || c == '\n' || c == Char.ofNat 11 || c == Char.ofNat 12 || c == '\r'

/-- The NUL character terminating every C string. -/
def nulChar : Char := Char.ofNat 0

/-- Reading `*p` through a `List Char` view of a C string: the terminating
NUL when the remainder is empty. -/
def cstrHead : List Char → Char
  | [] => nulChar
  | c :: _ => c

/-! ### src/vars.c : name validation -/

/-- Embeds `is_valid_varname` from src/vars.c: first character `isalpha` or `'_'`,
every later character `isalnum` or `'_'`; the empty string fails the first
character check (`*name` is NUL). -/
def is_valid_varname (s : String) : Bool :=
  match s.data with
  | [] => false
  | c :: rest => (c_isalpha c || c == '_') && rest.all (fun d => c_isalnum d || d == '_')

/-- Embeds `vars_is_valid_varname` from src/vars.c: public wrapper. -/
def vars_is_valid_varname (s : String) : Bool :=
  is_valid_varname s

/-! ### environment model (getenv / setenv / unsetenv) -/

def getenvF (env : List (String × String)) (n : String) : Option String :=
  (env.find? (fun p => p.1 = n)).map (fun p => p.2)

def setenvF : List (String × String) → String → String → List (String × String)
  | [], n, v => [(n, v)]
  | p :: rest, n, v => if p.1 = n then (n, v) :: rest else p :: setenvF rest n v

def unsetenvF (env : List (String × String)) (n : String) : List (String × String) :=
  env.filter (fun p => p.1 ≠ n)

/-! ### src/vars.c : the variable store -/

/-- Embeds `struct var` from src/vars.c (without the intrusive `next` pointer,
which the containing list models). -/
structure Var where
  exported : Bool
  value : Option String
  name : String
deriving DecidableEq

/-- The whole mutable state touched by vars.c: the private `var_list` plus
the process environment. -/
structure ShState where
  varList : List Var
  env : List (String × String)
deriving DecidableEq

/-- Embeds `find_var` from src/vars.c: first list entry with the given name. -/
def find_var (st : ShState) (n : String) : Option Var :=
  st.varList.find? (fun v => v.name = n)

/-- Embeds `new_var` from src/vars.c: fresh record, `export` flag imported from the
environment (`getenv(name) != NULL`), no value, pushed at the list head. -/
def new_var (st : ShState) (n : String) : Var × ShState :=
  let v : Var := { exported := (getenvF st.env n).isSome, value := none, name := n }
  (v, { st with varList := v :: st.varList })

/-- Embeds `remove_var` from src/vars.c: unlink the first entry with the given name
(the loop `break`s after the first hit). -/
def remove_var : List Var → String → List Var
  | [], _ => []
  | v :: rest, n => if v.name = n then rest else v :: remove_var rest n

/-- Embeds `ensure_var` from src/vars.c. -/
def ensure_var (st : ShState) (n : String) : Var × ShState :=
  match find_var st n with
  | some v => (v, st)
  | none => new_var st n

/-- In-place mutation `v->value = dupval` through the pointer returned by
`find_var`/`ensure_var`: update the first entry with the given name. -/
def setVarValue : List Var → String → Option String → List Var
  | [], _, _ => []
  | v :: rest, n, val =>
    if v.name = n then { v with value := val } :: rest else v :: setVarValue rest n val

/-- In-place mutation `v->export = 1`: mark the first entry with the given
name exported. -/
def setVarExported : List Var → String → List Var
  | [], _ => []
  | v :: rest, n =>
    if v.name = n then { v with exported := true } :: rest else v :: setVarExported rest n

/-- Embeds `vars_set` from src/vars.c.  `name`/`value` are `Option` to model the
NULL-pointer checks.  Returns the C `int` result and the post-state. -/
def vars_set (envOk : Bool) (st : ShState) (name value : Option String) : Int × ShState :=
  match name, value with
  | some n, some v =>
    if is_valid_varname n = false then (-1, st)
    else
      let p := ensure_var st n
      if p.1.exported then
        if envOk then (0, { p.2 with env := setenvF p.2.env n v }) else (-1, p.2)
      else
        (0, { p.2 with varList := setVarValue p.2.varList n (some v) })
  | _, _ => (-1, st)

/-- Embeds `vars_get` from src/vars.c: a private non-exported record wins, otherwise
fall back to the environment. -/
def vars_get (st : ShState) (name : Option String) : Option String :=
  match name with
  | none => none
  | some n =>
    if is_valid_varname n = false then none
    else
      match find_var st n with
      | some v => if v.exported = false then v.value else getenvF st.env n
      | none => getenvF st.env n

/-- Embeds `vars_unset` from src/vars.c: remove the private record and the
environment binding; `unsetenv` on a valid name succeeds. -/
def vars_unset (st : ShState) (name : Option String) : Int × ShState :=
  match name with
  | none => (-1, st)
  | some n =>
    if is_valid_varname n = false then (-1, st)
    else (0, { varList := remove_var st.varList n, env := unsetenvF st.env n })

/-- Embeds `vars_export` from src/vars.c: ensure a record, mark it exported, and if
it already holds a value push that value into the environment (the mark is
applied before the fallible `setenv` and is not rolled back on failure). -/
def vars_export (envOk : Bool) (st : ShState) (name : Option String) : Int × ShState :=
  match name with
  | none => (-1, st)
  | some n =>
    if is_valid_varname n = false then (-1, st)
    else
      let p := ensure_var st n
      let st2 := { p.2 with varList := setVarExported p.2.varList n }
      match p.1.value with
      | some val =>
        if envOk then (0, { st2 with env := setenvF st2.env n val }) else (-1, st2)
      | none => (0, st2)

/-! ### operation sequences over the store (for the per-name-uniqueness
invariant) -/

inductive VarOp where
  | set (envOk : Bool) (name value : String)
  | get (name : String)
  | unset (name : String)
  | exp (envOk : Bool) (name : String)

def runOp (st : ShState) : VarOp → ShState
  | .set ok n v => (vars_set ok st (some n) (some v)).2
  | .get _ => st
  | .unset n => (vars_unset st (some n)).2
  | .exp ok n => (vars_export ok st (some n)).2

def runOps (st : ShState) : List VarOp → ShState
  | [] => st
  | op :: rest => runOps (runOp st op) rest

/-- The names of the private-table records, in list order. -/
def varNames (st : ShState) : List String :=
  st.varList.map Var.name

/-! ### src/builtins.c : redirection virtualization shim -/

/-- One node of `struct builtin_redir`. -/
structure builtin_redir where
  pseudofd : Int
  realfd : Int
deriving DecidableEq

/-- Embeds `get_pseudo_fd` from src/builtins.c: walk the list; at each node check
`realfd` first (double-redirection guard, result -1), then `pseudofd`
(result: that node's `realfd`); fall through to `fd` itself. -/
def get_pseudo_fd : List builtin_redir → Int → Int
  | [], fd => fd
  | r :: rest, fd =>
    if r.realfd = fd then -1
    else if r.pseudofd = fd then r.realfd
    else get_pseudo_fd rest fd

/-- Modelled from the claim's words (refinement spec for the shim): if the
logical fd matches SOME pair's real-descriptor slot the result is -1;
otherwise the first pair whose pseudo-descriptor slot matches gives its real
descriptor; otherwise the fd is returned unchanged. -/
def resolve_claim (l : List builtin_redir) (fd : Int) : Int :=
  if l.any (fun r => r.realfd = fd) then -1
  else
    match l.find? (fun r => r.pseudofd = fd) with
    | some r => r.realfd
    | none => fd

/-- First-match characterization of the shim: the first pair matching the fd
in either slot decides, its real slot checked before its pseudo slot. -/
def resolve_first_match (l : List builtin_redir) (fd : Int) : Int :=
  match l.find? (fun r => r.realfd = fd ∨ r.pseudofd = fd) with
  | some r => if r.realfd = fd then -1 else r.realfd
  | none => fd

/-! ### strtol model (base 10) -/

def digitsToInt (ds : List Char) : Int :=
  ds.foldl (fun a c => 10 * a + ((c.toNat : Int) - ('0'.toNat : Int))) 0

/-- Digit-run phase of `strtol`: if no digit follows, no conversion was
performed and `endptr` is reset to the original start `orig`. -/
def strtolDigits (sign : Int) (t orig : List Char) : Int × List Char :=
  let ds := t.takeWhile c_isdigit
  let rest := t.dropWhile c_isdigit
  if ds = [] then (0, orig) else (sign * digitsToInt ds, rest)

/-- Embeds `strtol(s, &endptr, 10)` as (value, remainder-at-endptr): skip
whitespace, optional sign, digit run.  Overflow clamping is not modelled;
the claims below depend only on the endptr position and the sign/magnitude
tests, which clamping does not change. -/
def strtol10 (s : List Char) : Int × List Char :=
  match s.dropWhile c_isspace with
  | [] => strtolDigits 1 [] s
  | ch :: r =>
    if ch = '+' then strtolDigits 1 r s
    else if ch = '-' then strtolDigits (-1) r s
    else strtolDigits 1 (ch :: r) s

/-! ### src/builtins.c : exit -/

inductive ExitOutcome where
  /-- Means `bigshell_exit()` was reached: the process terminates with
  `params.status = status`. -/
  | exited (status : Int)
  /-- The builtin returned `r` without terminating the process. -/
  | ret (r : Int)
deriving DecidableEq

structure ExitResult where
  outcome : ExitOutcome
  diags : List (Int × String)
deriving DecidableEq

/-- Embeds `builtin_exit` from src/builtins.c.  `paramsStatus` is the external
`params.status` (status of the last foreground command). -/
def builtin_exit (paramsStatus : Int) (redir : List builtin_redir)
    (words : List String) : ExitResult :=
  match words with
  | _ :: _ :: _ :: _ =>
    ⟨.ret (-1), [(get_pseudo_fd redir 2, "exit: Too many arguments\n")]⟩
  | [_, w1] =>
    let p := strtol10 w1.data
    if cstrHead p.2 ≠ nulChar ∨ cstrHead p.2 = cstrHead w1.data then
      ⟨.ret (-1), [(get_pseudo_fd redir 2, "exit: Non-numeric value given\n")]⟩
    else
      ⟨.exited p.1, []⟩
  | _ => ⟨.exited paramsStatus, []⟩

/-! ### src/builtins.c : cd -/

structure CdResult where
  ret : Int
  st : ShState
  diags : List (Int × String)
  /-- Holds `some t` when `chdir(target_dir)` was reached with argument `t`
  (`t : Option String` since `target_dir` is a possibly-NULL pointer);
  `none` when the builtin returned before the chdir. -/
  chdirArg : Option (Option String)
deriving DecidableEq

/-- Tail of `builtin_cd`: `vars_set("PWD", target)`, reload `target_dir`
from `vars_get("PWD")`, `chdir(target_dir)` — whose result is discarded
(`chdirOk` is deliberately unused, as the C source ignores the return
value). -/
def cd_finish (envOk chdirOk : Bool) (stderrFd : Int) (st : ShState)
    (target : Option String) : CdResult :=
  let p := vars_set envOk st (some "PWD") target
  if p.1 ≠ 0 then
    ⟨-1, p.2, [(stderrFd, "cd: Error setting PWD\n")], none⟩
  else
    ⟨0, p.2, [], some (vars_get p.2 (some "PWD"))⟩

/-- Embeds `builtin_cd` from src/builtins.c. -/
def builtin_cd (envOk chdirOk : Bool) (redir : List builtin_redir)
    (st : ShState) (words : List String) : CdResult :=
  let stderrFd := get_pseudo_fd redir 2
  match words with
  | [_] =>
    match vars_get st (some "HOME") with
    | none => ⟨-1, st, [(stderrFd, "cd: HOME not set\n")], none⟩
    | some home => cd_finish envOk chdirOk stderrFd st (some home)
  | _ :: _ :: _ :: _ =>
    ⟨-1, st, [(stderrFd, "cd: Too many arguments\n")], none⟩
  | [_, w1] =>
    if vars_is_valid_varname w1 = false then ⟨-1, st, [], none⟩
    else cd_finish envOk chdirOk stderrFd st (some w1)
  | [] => cd_finish envOk chdirOk stderrFd st none

/-! ### src/builtins.c : fg -/

/-- One entry of the external job list. -/
structure Job where
  jid : Int
  pgid : Int
deriving DecidableEq

/-- The consumed job-control facade: `jobs_get_joblist` (+ its size),
`jobs_get_pgid` (negative result = unresolvable job id), `wait_on_fg_job`
(negative result = wait failure, `waitErrMsg` the corresponding
`strerror(errno)` text). -/
structure JobsFacade where
  joblist : List Job
  getPgid : Int → Int
  waitFg : Int → Int
  waitErrMsg : String

structure FgResult where
  ret : Int
  diags : List (Int × String)
  /-- Holds `some pgid` when `kill(-pgid, SIGCONT)` was issued; `none` when no
  signal was sent. -/
  killed : Option Int
deriving DecidableEq

def strerror_EINVAL : String := "Invalid argument"

def backquote : String := (Char.ofNat 96).toString

def squote : String := (Char.ofNat 39).toString

/-- Tail of `builtin_fg` after the job id is resolved: look up the process
group, signal it, wait on the foreground job. -/
def fg_act (jobs : JobsFacade) (stderrFd : Int) (jobId : Int) : FgResult :=
  let pgid := jobs.getPgid jobId
  if pgid < 0 then
    ⟨-1, [(stderrFd, "fg: " ++ strerror_EINVAL)], none⟩
  else if jobs.waitFg jobId < 0 then
    ⟨-1, [(stderrFd, "fg: " ++ jobs.waitErrMsg)], some pgid⟩
  else
    ⟨0, [], some pgid⟩

/-- The `fg: `arg': Invalid argument` diagnostic text. -/
def fgEinvalMsg (arg : String) : String :=
  "fg: " ++ backquote ++ arg ++ squote ++ ": " ++ strerror_EINVAL ++ "\n"

/-- Embeds `builtin_fg` from src/builtins.c.  The zero-word case is unreachable
through the dispatcher (`get_builtin` maps empty commands to
`builtin_null`); the C source would read `words[2]` out of bounds there, so
the model returns the diagnostic with an unspecified (empty) argument
text. -/
def builtin_fg (jobs : JobsFacade) (redir : List builtin_redir)
    (words : List String) : FgResult :=
  let stderrFd := get_pseudo_fd redir 2
  match words with
  | [_] =>
    match jobs.joblist with
    | [] => ⟨-1, [(stderrFd, "No jobs\n")], none⟩
    | j :: _ => fg_act jobs stderrFd j.jid
  | [_, w1] =>
    let p := strtol10 w1.data
    if cstrHead p.2 ≠ nulChar ∨ cstrHead w1.data = nulChar ∨ p.1 < 0 ∨ p.1 > 2147483647 then
      ⟨-1, [(stderrFd, fgEinvalMsg w1)], none⟩
    else fg_act jobs stderrFd p.1
  | _ :: _ :: w2 :: _ =>
    ⟨-1, [(stderrFd, fgEinvalMsg w2)], none⟩
  | [] =>
    ⟨-1, [(stderrFd, fgEinvalMsg "")], none⟩

/-! ### helper lemmas: environment -/

theorem getenvF_setenvF_self (env : List (String × String)) (n v : String) :
    getenvF (setenvF env n v) n = some v := by
  induction env with
  | nil => simp [getenvF, setenvF, List.find?]
  | cons p rest ih =>
    by_cases h : p.1 = n
    · simp [getenvF, setenvF, h, List.find?]
    · simp only [setenvF, if_neg h]
      simpa [getenvF, List.find?, h] using ih

theorem getenvF_setenvF_ne (env : List (String × String)) (n v m : String)
    (hmn : m ≠ n) : getenvF (setenvF env n v) m = getenvF env m := by
  have hnm : ¬(n = m) := fun hh => hmn hh.symm
  induction env with
  | nil => simp [getenvF, setenvF, List.find?, hnm]
  | cons p rest ih =>
    by_cases h : p.1 = n
    · subst h
      simp [getenvF, setenvF, List.find?, hnm]
    · simp only [setenvF, if_neg h]
      by_cases hm : p.1 = m
      · simp [getenvF, List.find?, hm]
      · simpa [getenvF, List.find?, hm] using ih

/-! ### helper lemmas: the private variable list -/

theorem find?_setVarValue_self (l : List Var) (n : String) (val : Option String) :
    (setVarValue l n val).find? (fun v => v.name = n)
      = (l.find? (fun v => v.name = n)).map (fun v => { v with value := val }) := by
  induction l with
  | nil => simp [setVarValue]
  | cons v rest ih =>
    by_cases h : v.name = n
    · simp [setVarValue, h, List.find?]
    · simp only [setVarValue, if_neg h]
      simpa [List.find?, h] using ih

theorem find?_setVarValue_ne (l : List Var) (n : String) (val : Option String)
    (m : String) (hmn : m ≠ n) :
    (setVarValue l n val).find? (fun v => v.name = m)
      = l.find? (fun v => v.name = m) := by
  have hnm : ¬(n = m) := fun hh => hmn hh.symm
  induction l with
  | nil => simp [setVarValue]
  | cons v rest ih =>
    by_cases h : v.name = n
    · subst h
      simp [setVarValue, List.find?, hnm]
    · simp only [setVarValue, if_neg h]
      by_cases hm : v.name = m
      · simp [List.find?, hm]
      · simpa [List.find?, hm] using ih

theorem find?_setVarExported_self (l : List Var) (n : String) :
    (setVarExported l n).find? (fun v => v.name = n)
      = (l.find? (fun v => v.name = n)).map (fun v => { v with exported := true }) := by
  induction l with
  | nil => simp [setVarExported]
  | cons v rest ih =>
    by_cases h : v.name = n
    · simp [setVarExported, h, List.find?]
    · simp only [setVarExported, if_neg h]
      simpa [List.find?, h] using ih

theorem find?_setVarExported_ne (l : List Var) (n m : String) (hmn : m ≠ n) :
    (setVarExported l n).find? (fun v => v.name = m)
      = l.find? (fun v => v.name = m) := by
  have hnm : ¬(n = m) := fun hh => hmn hh.symm
  induction l with
  | nil => simp [setVarExported]
  | cons v rest ih =>
    by_cases h : v.name = n
    · subst h
      simp [setVarExported, List.find?, hnm]
    · simp only [setVarExported, if_neg h]
      by_cases hm : v.name = m
      · simp [List.find?, hm]
      · simpa [List.find?, hm] using ih

/-! ### helper lemmas: vars_set / vars_get -/

theorem vars_set_ret_ok (st : ShState) (n v : String)
    (hv : is_valid_varname n = true) :
    (vars_set true st (some n) (some v)).1 = 0 := by
  simp only [vars_set, hv]
  by_cases h : (ensure_var st n).1.exported <;> simp [h]

theorem vars_set_then_get (envOk : Bool) (st : ShState) (n v : String)
    (h : (vars_set envOk st (some n) (some v)).1 = 0) :
    vars_get (vars_set envOk st (some n) (some v)).2 (some n) = some v := by
  cases hv : is_valid_varname n with
  | false => simp [vars_set, hv] at h
  | true =>
    cases hf : find_var st n with
    | none =>
      cases he : getenvF st.env n with
      | none =>
        simp only [vars_set, hv, ensure_var, hf, new_var, he, Option.isSome_none,
          Bool.false_eq_true, if_false, Bool.true_eq_false]
        simp [vars_get, hv, find_var, setVarValue, List.find?]
      | some w =>
        cases envOk with
        | false => simp [vars_set, hv, ensure_var, hf, new_var, he] at h
        | true =>
          simp only [vars_set, hv, ensure_var, hf, new_var, he, Option.isSome_some,
            if_true, Bool.true_eq_false]
          simp [vars_get, hv, find_var, List.find?, getenvF_setenvF_self]
    | some var =>
      cases hexp : var.exported with
      | false =>
        simp only [vars_set, hv, ensure_var, hf, hexp, Bool.false_eq_true, if_false,
          Bool.true_eq_false]
        simp only [vars_get, hv, find_var, Bool.true_eq_false, if_false]
        rw [find?_setVarValue_self]
        simp only [find_var] at hf
        simp [hf, hexp]
      | true =>
        cases envOk with
        | false => simp [vars_set, hv, ensure_var, hf, hexp] at h
        | true =>
          simp only [vars_set, hv, ensure_var, hf, hexp, if_true, Bool.true_eq_false]
          simp only [vars_get, hv, find_var, Bool.true_eq_false, if_false]
          simp only [find_var] at hf
          simp [hf, hexp, getenvF_setenvF_self]

/-! ### bridges between the ctype model and the Lean character classes -/

theorem c_isalpha_eq_isAlpha (c : Char) : c_isalpha c = c.isAlpha := by
  simp [c_isalpha, Char.isAlpha, Char.isUpper, Char.isLower, Char.le_def,
    decide_eq_decide, ge_iff_le]

theorem c_isdigit_eq_isDigit (c : Char) : c_isdigit c = c.isDigit := by
  simp [c_isdigit, Char.isDigit, Char.le_def, decide_eq_decide, ge_iff_le]

theorem c_isalnum_eq_isAlphanum (c : Char) : c_isalnum c = c.isAlphanum := by
  simp [c_isalnum, Char.isAlphanum, c_isalpha_eq_isAlpha, c_isdigit_eq_isDigit]

/-! ### claim C1 -/

/-- C1: for every valid variable name N and value V, a successful
`vars_set(N, V)` followed immediately by `vars_get(N)` returns exactly V,
regardless of whether N was exported (environment-backed) or unexported
(private-table-backed) before the set. -/
theorem C1_set_then_get (envOk : Bool) (st : ShState) (n v : String)
    (h : (vars_set envOk st (some n) (some v)).1 = 0) :
    vars_get (vars_set envOk st (some n) (some v)).2 (some n) = some v :=
  vars_set_then_get envOk st n v h

/-- Witness for C1: a concrete store where X is exported (present in the
environment) and a concrete store where it is private. -/
theorem C1_witness :
    ((vars_set true ⟨[], [("X", "old")]⟩ (some "X") (some "b")).1 = 0 ∧
      vars_get (vars_set true ⟨[], [("X", "old")]⟩ (some "X") (some "b")).2 (some "X")
        = some "b") ∧
    ((vars_set true ⟨[⟨false, some "u", "X"⟩], []⟩ (some "X") (some "b")).1 = 0 ∧
      vars_get (vars_set true ⟨[⟨false, some "u", "X"⟩], []⟩ (some "X") (some "b")).2 (some "X")
        = some "b") :=
  ⟨⟨by decide, C1_set_then_get true ⟨[], [("X", "old")]⟩ "X" "b" (by decide)⟩,
   ⟨by decide, C1_set_then_get true ⟨[⟨false, some "u", "X"⟩], []⟩ "X" "b" (by decide)⟩⟩

/-! ### claim C4 -/

/-- C4: `is_valid_varname` (and its public wrapper) accepts exactly the
strings that are non-empty, start with a letter or underscore, and continue
with letters, digits or underscores; in particular "1abc", "", "a-b" are
invalid and "_a1", "A", "a_B2" are valid. -/
theorem C4_valid_varname :
    (∀ s : String,
      vars_is_valid_varname s = true ↔
        match s.data with
        | [] => False
        | c :: rest =>
          (c.isAlpha = true ∨ c = '_') ∧ ∀ d ∈ rest, d.isAlphanum = true ∨ d = '_')
    ∧ vars_is_valid_varname "1abc" = false
    ∧ vars_is_valid_varname "" = false
    ∧ vars_is_valid_varname "a-b" = false
    ∧ vars_is_valid_varname "_a1" = true
    ∧ vars_is_valid_varname "A" = true
    ∧ vars_is_valid_varname "a_B2" = true := by
  refine ⟨?_, by decide, by decide, by decide, by decide, by decide, by decide⟩
  intro s
  cases hd : s.data with
  | nil => simp [vars_is_valid_varname, is_valid_varname, hd]
  | cons c rest =>
    simp [vars_is_valid_varname, is_valid_varname, hd, Bool.and_eq_true, Bool.or_eq_true,
      List.all_eq_true, c_isalpha_eq_isAlpha, c_isalnum_eq_isAlphanum, beq_iff_eq]

/-! ### claim C2 -/

/-- C2 counterexample: on the list [(pseudo 5, real 1), (pseudo 2, real 5)]
and logical fd 5, the claim's staged rule (any pair's real-slot match wins
and yields -1, as formalized by `resolve_claim`) demands -1, but the shim
resolves 5 through the FIRST pair's pseudo slot and returns 1. -/
theorem C2_counterexample :
    get_pseudo_fd [⟨5, 1⟩, ⟨2, 5⟩] 5 = 1 ∧ resolve_claim [⟨5, 1⟩, ⟨2, 5⟩] 5 = -1 := by
  exact ⟨by decide, by decide⟩

/-- C2 amended: the shim scans the pairs in caller-defined list order and the
FIRST pair matching fd in either slot decides the result: -1 when fd equals
that pair's real descriptor (the real slot is checked before the pseudo slot
within each pair), otherwise that pair's real descriptor; when no pair
matches, fd unchanged.  In particular for [(10,2)]: 10 resolves to 2,
2 resolves to -1, 1 resolves to 1. -/
theorem C2_amended :
    (∀ (l : List builtin_redir) (fd : Int),
      get_pseudo_fd l fd = resolve_first_match l fd)
    ∧ get_pseudo_fd [⟨10, 2⟩] 10 = 2
    ∧ get_pseudo_fd [⟨10, 2⟩] 2 = -1
    ∧ get_pseudo_fd [⟨10, 2⟩] 1 = 1 := by
  refine ⟨?_, by decide, by decide, by decide⟩
  intro l fd
  induction l with
  | nil => simp [get_pseudo_fd, resolve_first_match]
  | cons r rest ih =>
    by_cases hr : r.realfd = fd
    · simp [get_pseudo_fd, resolve_first_match, List.find?, hr]
    · by_cases hp : r.pseudofd = fd
      · simp [get_pseudo_fd, resolve_first_match, List.find?, hr, hp]
      · simpa [get_pseudo_fd, resolve_first_match, List.find?, hr, hp] using ih

/-! ### claim C3 -/

/-- C3 counterexample: store holding the private, unexported record X="x",
empty environment, failing environment write.  `vars_export("X")` returns
failure, yet the observable state changes: `vars_get("X")` returned "x"
before the call and returns nothing afterwards, because the record was
marked exported before the failed `setenv` and the mark is not rolled
back. -/
theorem C3_counterexample :
    (vars_export false ⟨[⟨false, some "x", "X"⟩], []⟩ (some "X")).1 = -1 ∧
    vars_get ⟨[⟨false, some "x", "X"⟩], []⟩ (some "X") = some "x" ∧
    vars_get (vars_export false ⟨[⟨false, some "x", "X"⟩], []⟩ (some "X")).2 (some "X")
      = none := by
  exact ⟨by decide, by decide, by decide⟩

/-- C3 amended: atomicity on a failed environment write holds for `vars_set`
(it returns -1 and every `vars_get` observation is unchanged), but not for
`vars_export`: on a record already holding a value, a failed environment
write returns -1 with the record already marked exported, so `vars_get(N)`
thereafter reads the environment instead of the private value. -/
theorem C3_amended :
    (∀ (st : ShState) (n v : String),
      is_valid_varname n = true →
      (ensure_var st n).1.exported = true →
      (vars_set false st (some n) (some v)).1 = -1 ∧
      ∀ m : String,
        vars_get (vars_set false st (some n) (some v)).2 (some m) = vars_get st (some m))
    ∧
    (∀ (st : ShState) (n val : String) (var : Var),
      is_valid_varname n = true →
      find_var st n = some var →
      var.value = some val →
      (vars_export false st (some n)).1 = -1 ∧
      ∀ m : String,
        vars_get (vars_export false st (some n)).2 (some m)
          = if m = n then getenvF st.env n else vars_get st (some m)) := by
  constructor
  · intro st n v hv hexp
    cases hf : find_var st n with
    | some var =>
      simp only [ensure_var, hf] at hexp
      have hset : vars_set false st (some n) (some v) = (-1, st) := by
        simp [vars_set, hv, ensure_var, hf, hexp]
      exact ⟨by rw [hset], fun m => by rw [hset]⟩
    | none =>
      simp only [ensure_var, hf, new_var] at hexp
      have hset : vars_set false st (some n) (some v)
          = (-1, { varList := ⟨true, none, n⟩ :: st.varList, env := st.env }) := by
        simp [vars_set, hv, ensure_var, hf, new_var, hexp]
      refine ⟨by rw [hset], ?_⟩
      intro m
      rw [hset]
      by_cases hm : m = n
      · subst hm
        have hf' : st.varList.find? (fun v => v.name = m) = none := hf
        simp [vars_get, hv, find_var, List.find?, hf']
      · have hnm : ¬(n = m) := fun hh => hm hh.symm
        cases hvm : is_valid_varname m with
        | false => simp [vars_get, hvm]
        | true => simp [vars_get, hvm, find_var, List.find?, hnm]
  · intro st n val var hv hf hval
    have hexport : vars_export false st (some n)
        = (-1, { varList := setVarExported st.varList n, env := st.env }) := by
      simp [vars_export, hv, ensure_var, hf, hval]
    refine ⟨by rw [hexport], ?_⟩
    intro m
    rw [hexport]
    by_cases hm : m = n
    · subst hm
      have hf' : st.varList.find? (fun v => v.name = m) = some var := hf
      have h2 : (setVarExported st.varList m).find? (fun v => v.name = m)
          = some { var with exported := true } := by
        rw [find?_setVarExported_self, hf']
        rfl
      simp [vars_get, hv, find_var, h2]
    · have h3 : (setVarExported st.varList n).find? (fun v => v.name = m)
          = st.varList.find? (fun v => v.name = m) := find?_setVarExported_ne _ _ _ hm
      cases hvm : is_valid_varname m with
      | false => simp [vars_get, hvm, hm]
      | true => simp [vars_get, hvm, find_var, h3, hm]

/-- Witness for the amended C3: a store with an exported record Y (value in
the environment) for the `vars_set` half, and the private record X="x" for
the `vars_export` half. -/
theorem C3_witness :
    ((vars_set false ⟨[⟨true, none, "Y"⟩], [("Y", "e")]⟩ (some "Y") (some "w")).1 = -1 ∧
      vars_get (vars_set false ⟨[⟨true, none, "Y"⟩], [("Y", "e")]⟩ (some "Y") (some "w")).2
        (some "Y") = vars_get ⟨[⟨true, none, "Y"⟩], [("Y", "e")]⟩ (some "Y")) ∧
    ((vars_export false ⟨[⟨false, some "x", "X"⟩], []⟩ (some "X")).1 = -1 ∧
      vars_get (vars_export false ⟨[⟨false, some "x", "X"⟩], []⟩ (some "X")).2 (some "X")
        = getenvF ([] : List (String × String)) "X") := by
  refine ⟨⟨(C3_amended.1 ⟨[⟨true, none, "Y"⟩], [("Y", "e")]⟩ "Y" "w" (by decide) (by decide)).1,
        (C3_amended.1 ⟨[⟨true, none, "Y"⟩], [("Y", "e")]⟩ "Y" "w" (by decide) (by decide)).2 "Y"⟩,
      ⟨(C3_amended.2 ⟨[⟨false, some "x", "X"⟩], []⟩ "X" "x" ⟨false, some "x", "X"⟩
        (by decide) (by decide) (by decide)).1, ?_⟩⟩
  have h := (C3_amended.2 ⟨[⟨false, some "x", "X"⟩], []⟩ "X" "x" ⟨false, some "x", "X"⟩
    (by decide) (by decide) (by decide)).2 "X"
  simpa using h

/-! ### claim C9 : name uniqueness in the private table -/

theorem map_name_setVarValue (l : List Var) (n : String) (val : Option String) :
    (setVarValue l n val).map Var.name = l.map Var.name := by
  induction l with
  | nil => rfl
  | cons v rest ih =>
    by_cases h : v.name = n <;> simp [setVarValue, h, ih]

theorem map_name_setVarExported (l : List Var) (n : String) :
    (setVarExported l n).map Var.name = l.map Var.name := by
  induction l with
  | nil => rfl
  | cons v rest ih =>
    by_cases h : v.name = n <;> simp [setVarExported, h, ih]

theorem remove_var_sublist (l : List Var) (n : String) :
    List.Sublist (remove_var l n) l := by
  induction l with
  | nil => simp [remove_var]
  | cons v rest ih =>
    by_cases h : v.name = n
    · simpa [remove_var, h] using List.sublist_cons_self v rest
    · simpa [remove_var, h] using ih.cons₂ v

theorem not_mem_names_of_find?_none (l : List Var) (n : String)
    (h : l.find? (fun v => v.name = n) = none) : n ∉ l.map Var.name := by
  intro hmem
  obtain ⟨v, hv, hname⟩ := List.mem_map.mp hmem
  have := List.find?_eq_none.mp h v hv
  simp [hname] at this

theorem vars_set_names_nodup (envOk : Bool) (st : ShState) (n v : String)
    (h : (st.varList.map Var.name).Nodup) :
    (((vars_set envOk st (some n) (some v)).2).varList.map Var.name).Nodup := by
  cases hv : is_valid_varname n with
  | false => simpa [vars_set, hv] using h
  | true =>
    cases hf : find_var st n with
    | some var =>
      cases hexp : var.exported with
      | true => cases envOk <;> simpa [vars_set, hv, ensure_var, hf, hexp] using h
      | false =>
        simp [vars_set, hv, ensure_var, hf, hexp, map_name_setVarValue, h]
    | none =>
      have hnin : ∀ x ∈ st.varList, ¬x.name = n := by
        intro x hx
        have hpx := List.find?_eq_none.mp hf x hx
        simpa using hpx
      cases hexp : (getenvF st.env n).isSome with
      | true =>
        cases envOk <;>
          simpa [vars_set, hv, ensure_var, hf, new_var, hexp, List.nodup_cons] using ⟨hnin, h⟩
      | false =>
        simp [vars_set, hv, ensure_var, hf, new_var, hexp, map_name_setVarValue,
          setVarValue, List.nodup_cons]
        exact ⟨hnin, by simpa [map_name_setVarValue] using h⟩

theorem vars_export_names_nodup (envOk : Bool) (st : ShState) (n : String)
    (h : (st.varList.map Var.name).Nodup) :
    (((vars_export envOk st (some n)).2).varList.map Var.name).Nodup := by
  cases hv : is_valid_varname n with
  | false => simpa [vars_export, hv] using h
  | true =>
    cases hf : find_var st n with
    | some var =>
      cases hval : var.value with
      | some val =>
        cases envOk <;>
          simpa [vars_export, hv, ensure_var, hf, hval, map_name_setVarExported] using h
      | none => simpa [vars_export, hv, ensure_var, hf, hval, map_name_setVarExported] using h
    | none =>
      have hnin : ∀ x ∈ st.varList, ¬x.name = n := by
        intro x hx
        have hpx := List.find?_eq_none.mp hf x hx
        simpa using hpx
      simp [vars_export, hv, ensure_var, hf, new_var, map_name_setVarExported,
        setVarExported, List.nodup_cons]
      exact ⟨hnin, by simpa [map_name_setVarExported] using h⟩

theorem vars_unset_names_nodup (st : ShState) (n : String)
    (h : (st.varList.map Var.name).Nodup) :
    (((vars_unset st (some n)).2).varList.map Var.name).Nodup := by
  cases hv : is_valid_varname n with
  | false => simpa [vars_unset, hv] using h
  | true =>
    simp only [vars_unset, hv, Bool.true_eq_false, if_false]
    exact h.sublist ((remove_var_sublist st.varList n).map Var.name)

theorem runOp_names_nodup (st : ShState) (op : VarOp)
    (h : (st.varList.map Var.name).Nodup) :
    (((runOp st op).varList.map Var.name)).Nodup := by
  cases op with
  | set ok n v => exact vars_set_names_nodup ok st n v h
  | get n => exact h
  | unset n => exact vars_unset_names_nodup st n h
  | exp ok n => exact vars_export_names_nodup ok st n h

theorem runOps_names_nodup (ops : List VarOp) (st : ShState)
    (h : (st.varList.map Var.name).Nodup) :
    (((runOps st ops).varList.map Var.name)).Nodup := by
  induction ops generalizing st with
  | nil => exact h
  | cons op rest ih => exact ih (runOp st op) (runOp_names_nodup st op h)

/-- C9: every sequence of store operations starting from the empty private
table keeps at most one record per name: the name list of the private table
stays duplicate-free. -/
theorem C9_unique_names (ops : List VarOp) (env0 : List (String × String)) :
    (varNames (runOps ⟨[], env0⟩ ops)).Nodup :=
  runOps_names_nodup ops ⟨[], env0⟩ (by simp)

/-! ### claim C5 : exit argument parsing -/

theorem strtolDigits_rest_mem (sign : Int) (t orig : List Char)
    (ht : List.Sublist t orig) (c : Char)
    (hc : c ∈ (strtolDigits sign t orig).2) : c ∈ orig := by
  unfold strtolDigits at hc
  by_cases hds : t.takeWhile c_isdigit = []
  · simpa [hds] using hc
  · simp only [hds, if_neg (fun hh => hds hh)] at hc
    exact ht.subset ((List.dropWhile_sublist _).subset hc)

theorem strtol10_rest_mem (s : List Char) (c : Char)
    (hc : c ∈ (strtol10 s).2) : c ∈ s := by
  have hts : List.Sublist (s.dropWhile c_isspace) s := List.dropWhile_sublist _
  unfold strtol10 at hc
  cases ht : s.dropWhile c_isspace with
  | nil =>
    rw [ht] at hc
    exact strtolDigits_rest_mem 1 [] s (List.nil_sublist s) c hc
  | cons ch r =>
    simp only [ht] at hc
    rw [ht] at hts
    have hrs : List.Sublist r s := (List.sublist_cons_self ch r).trans hts
    by_cases h1 : ch = '+'
    · rw [if_pos h1] at hc
      exact strtolDigits_rest_mem 1 r s hrs c hc
    · rw [if_neg h1] at hc
      by_cases h2 : ch = '-'
      · rw [if_pos h2] at hc
        exact strtolDigits_rest_mem (-1) r s hrs c hc
      · rw [if_neg h2] at hc
        exact strtolDigits_rest_mem 1 (ch :: r) s hts c hc

/-- The success test of `builtin_exit` (`*endptr == '\0'` and the argument
is not the empty string) is, for NUL-free arguments, exactly "the whole
argument was consumed and the argument is non-empty". -/
theorem exit_errcond_iff (w1 : String) (hnul : nulChar ∉ w1.data) :
    (cstrHead (strtol10 w1.data).2 ≠ nulChar ∨
        cstrHead (strtol10 w1.data).2 = cstrHead w1.data)
      ↔ ((strtol10 w1.data).2 ≠ [] ∨ w1.data = []) := by
  cases hrest : (strtol10 w1.data).2 with
  | nil =>
    simp only [cstrHead, ne_eq, not_true_eq_false, false_or]
    cases hd : w1.data with
    | nil => simp [cstrHead]
    | cons c cs =>
      have hcne : ¬nulChar = c := by
        intro hh
        exact hnul (hh.symm ▸ (hd ▸ List.mem_cons_self c cs))
      simp [cstrHead, hd, hcne]
  | cons c cs =>
    have hcmem : c ∈ (strtol10 w1.data).2 := by
      rw [hrest]; exact List.mem_cons_self c cs
    have hcne : c ≠ nulChar := fun hh => hnul (hh ▸ strtol10_rest_mem _ _ hcmem)
    simp [cstrHead, hcne]

/-- C5: with exactly one argument, `exit` terminates the process only when
the argument parses as a base-10 integer with no trailing characters and
non-empty digits; any argument violating this (e.g. "12x" or "") yields
return -1 without terminating the process, and more than one argument
yields return -1 without terminating the process. -/
theorem C5_exit_numeric (ps : Int) (redir : List builtin_redir) (w0 w1 : String)
    (hnul : nulChar ∉ w1.data) :
    ((∃ s, (builtin_exit ps redir [w0, w1]).outcome = .exited s) ↔
      ((strtol10 w1.data).2 = [] ∧ w1.data ≠ []))
    ∧ ((strtol10 w1.data).2 ≠ [] ∨ w1.data = [] →
        (builtin_exit ps redir [w0, w1]).outcome = .ret (-1))
    ∧ (∀ (w2 : String) (rest : List String),
        (builtin_exit ps redir (w0 :: w1 :: w2 :: rest)).outcome = .ret (-1))
    ∧ (builtin_exit ps redir [w0, "12x"]).outcome = .ret (-1)
    ∧ (builtin_exit ps redir [w0, ""]).outcome = .ret (-1) := by
  have hkey := exit_errcond_iff w1 hnul
  refine ⟨?_, ?_, fun w2 rest => rfl, rfl, rfl⟩
  · by_cases hcond : (cstrHead (strtol10 w1.data).2 ≠ nulChar ∨
        cstrHead (strtol10 w1.data).2 = cstrHead w1.data)
    · have hrhs := hkey.mp hcond
      simp only [builtin_exit, if_pos hcond]
      constructor
      · intro ⟨s, hs⟩
        exact absurd hs (by simp)
      · intro ⟨h1, h2⟩
        rcases hrhs with h | h
        · exact absurd h1 h
        · exact absurd h h2
    · have hrhs := fun hh => hcond (hkey.mpr hh)
      simp only [builtin_exit, if_neg hcond]
      constructor
      · intro _
        constructor
        · by_contra hne
          exact hrhs (Or.inl hne)
        · intro hd
          exact hrhs (Or.inr hd)
      · intro _
        exact ⟨(strtol10 w1.data).1, rfl⟩
  · intro hh
    have hcond : (cstrHead (strtol10 w1.data).2 ≠ nulChar ∨
        cstrHead (strtol10 w1.data).2 = cstrHead w1.data) := hkey.mpr hh
    simp only [builtin_exit, if_pos hcond]

/-- Witness for C5 at the concrete command `exit 7`. -/
theorem C5_witness :
    nulChar ∉ "7".data ∧
    ((∃ s, (builtin_exit 0 [] ["exit", "7"]).outcome = .exited s) ↔
      ((strtol10 "7".data).2 = [] ∧ "7".data ≠ [])) :=
  ⟨by decide, (C5_exit_numeric 0 [] "exit" "7" (by decide)).1⟩

/-! ### claims C6, C7, C10 : cd -/

theorem cd_finish_ok (chdirOk : Bool) (stderrFd : Int) (st : ShState) (target : String) :
    cd_finish true chdirOk stderrFd st (some target)
      = ⟨0, (vars_set true st (some "PWD") (some target)).2, [],
          some (vars_get (vars_set true st (some "PWD") (some target)).2 (some "PWD"))⟩ ∧
    vars_get (vars_set true st (some "PWD") (some target)).2 (some "PWD") = some target := by
  have hret : (vars_set true st (some "PWD") (some target)).1 = 0 :=
    vars_set_ret_ok st "PWD" target (by decide)
  exact ⟨by simp [cd_finish, hret], vars_set_then_get true st "PWD" target hret⟩

theorem cd_finish_chdir (envOk chOk : Bool) (fd : Int) (st : ShState)
    (target : Option String) (t : Option String)
    (h : (cd_finish envOk chOk fd st target).chdirArg = some t) :
    (cd_finish envOk chOk fd st target).ret = 0 ∧
    vars_get (cd_finish envOk chOk fd st target).st (some "PWD") = t := by
  by_cases hz : (vars_set envOk st (some "PWD") target).1 ≠ 0
  · simp [cd_finish, hz] at h
  · simp only [cd_finish, if_neg hz] at h ⊢
    have ht : vars_get (vars_set envOk st (some "PWD") target).2 (some "PWD") = t := by
      simpa using h
    exact ⟨by simp, ht⟩

/-- C6: `cd` with no argument targets `$HOME` (failing when HOME is unset),
`cd dir` requires `dir` to pass the variable-name grammar and on success
stores it into PWD, which becomes the chdir target; more than one argument
fails; on every success path PWD is updated in the store before the chdir is
attempted; and concretely, `cd` with HOME=/home/u sets PWD to /home/u and
returns 0. -/
theorem C6_cd_behavior (st : ShState) (redir : List builtin_redir) (chOk : Bool)
    (w0 w : String) :
    (vars_get st (some "HOME") = none →
      builtin_cd true chOk redir st [w0]
        = ⟨-1, st, [(get_pseudo_fd redir 2, "cd: HOME not set\n")], none⟩)
    ∧ (∀ h, vars_get st (some "HOME") = some h →
        (builtin_cd true chOk redir st [w0]).ret = 0 ∧
        vars_get (builtin_cd true chOk redir st [w0]).st (some "PWD") = some h ∧
        (builtin_cd true chOk redir st [w0]).chdirArg = some (some h))
    ∧ (vars_is_valid_varname w = false →
        (builtin_cd true chOk redir st [w0, w]).ret = -1)
    ∧ (vars_is_valid_varname w = true →
        (builtin_cd true chOk redir st [w0, w]).ret = 0 ∧
        vars_get (builtin_cd true chOk redir st [w0, w]).st (some "PWD") = some w ∧
        (builtin_cd true chOk redir st [w0, w]).chdirArg = some (some w))
    ∧ (∀ (envOk : Bool) (words : List String), 2 < words.length →
        (builtin_cd envOk chOk redir st words).ret = -1)
    ∧ ((builtin_cd true chOk [] ⟨[⟨false, some "/home/u", "HOME"⟩], []⟩ ["cd"]).ret = 0 ∧
        vars_get (builtin_cd true chOk [] ⟨[⟨false, some "/home/u", "HOME"⟩], []⟩ ["cd"]).st
          (some "PWD") = some "/home/u") := by
  refine ⟨?_, ?_, ?_, ?_, ?_, ?_⟩
  · intro hh
    simp [builtin_cd, hh]
  · intro h hh
    have hc := cd_finish_ok chOk (get_pseudo_fd redir 2) st h
    refine ⟨?_, ?_, ?_⟩ <;> simp [builtin_cd, hh, hc.1, hc.2]
  · intro hw
    simp [builtin_cd, hw]
  · intro hw
    have hc := cd_finish_ok chOk (get_pseudo_fd redir 2) st w
    refine ⟨?_, ?_, ?_⟩ <;> simp [builtin_cd, hw, hc.1, hc.2]
  · intro envOk words hlen
    cases words with
    | nil => simp at hlen
    | cons a t1 =>
      cases t1 with
      | nil => simp at hlen
      | cons b t2 =>
        cases t2 with
        | nil => simp at hlen
        | cons c t3 => simp [builtin_cd]
  · exact ⟨rfl, rfl⟩

/-- Witness for C6: HOME unset in the empty store; `cd tmp` on the empty
store. -/
theorem C6_witness :
    (vars_get ⟨[], []⟩ (some "HOME") = none ∧
      builtin_cd true true [] ⟨[], []⟩ ["cd"]
        = ⟨-1, ⟨[], []⟩, [(get_pseudo_fd [] 2, "cd: HOME not set\n")], none⟩) ∧
    (vars_is_valid_varname "tmp" = true ∧
      (builtin_cd true true [] ⟨[], []⟩ ["cd", "tmp"]).ret = 0) :=
  ⟨⟨by decide, (C6_cd_behavior ⟨[], []⟩ [] true "cd" "tmp").1 (by decide)⟩,
   ⟨by decide, ((C6_cd_behavior ⟨[], []⟩ [] true "cd" "tmp").2.2.2.1 (by decide)).1⟩⟩

/-- C7: whenever `cd` reaches the final directory-change step, it returns 0
even though the chdir outcome is ignored (the result is literally
independent of the chdir success flag), and PWD stays set to the target
that was (possibly never) entered. -/
theorem C7_cd_chdir_ignored (envOk chOk : Bool) (redir : List builtin_redir)
    (st : ShState) (words : List String) (t : Option String)
    (h : (builtin_cd envOk chOk redir st words).chdirArg = some t) :
    (builtin_cd envOk chOk redir st words).ret = 0 ∧
    vars_get (builtin_cd envOk chOk redir st words).st (some "PWD") = t ∧
    builtin_cd envOk true redir st words = builtin_cd envOk false redir st words := by
  have hinv : builtin_cd envOk true redir st words = builtin_cd envOk false redir st words := rfl
  cases words with
  | nil =>
    simp [builtin_cd, cd_finish, vars_set] at h
  | cons w0 t1 =>
    cases t1 with
    | nil =>
      cases hh : vars_get st (some "HOME") with
      | none => simp [builtin_cd, hh] at h
      | some home =>
        have h' : (cd_finish envOk chOk (get_pseudo_fd redir 2) st (some home)).chdirArg
            = some t := by simpa [builtin_cd, hh] using h
        have hc := cd_finish_chdir envOk chOk (get_pseudo_fd redir 2) st (some home) t h'
        exact ⟨by simpa [builtin_cd, hh] using hc.1, by simpa [builtin_cd, hh] using hc.2, hinv⟩
    | cons w1 t2 =>
      cases t2 with
      | nil =>
        cases hvw : vars_is_valid_varname w1 with
        | false => simp [builtin_cd, hvw] at h
        | true =>
          have h' : (cd_finish envOk chOk (get_pseudo_fd redir 2) st (some w1)).chdirArg
              = some t := by simpa [builtin_cd, hvw] using h
          have hc := cd_finish_chdir envOk chOk (get_pseudo_fd redir 2) st (some w1) t h'
          exact ⟨by simpa [builtin_cd, hvw] using hc.1,
            by simpa [builtin_cd, hvw] using hc.2, hinv⟩
      | cons w2 t3 => simp [builtin_cd] at h

/-- Witness for C7: `cd tmp` on the empty store with a failing chdir. -/
theorem C7_witness :
    (builtin_cd true false [] ⟨[], []⟩ ["cd", "tmp"]).chdirArg = some (some "tmp") ∧
    (builtin_cd true false [] ⟨[], []⟩ ["cd", "tmp"]).ret = 0 ∧
    vars_get (builtin_cd true false [] ⟨[], []⟩ ["cd", "tmp"]).st (some "PWD") = some "tmp" ∧
    builtin_cd true true [] ⟨[], []⟩ ["cd", "tmp"]
      = builtin_cd true false [] ⟨[], []⟩ ["cd", "tmp"] := by
  have h := C7_cd_chdir_ignored true false [] ⟨[], []⟩ ["cd", "tmp"] (some "tmp") (by decide)
  exact ⟨by decide, h.1, h.2.1, h.2.2⟩

/-- C10: `cd` with one argument failing the name grammar returns -1 with no
diagnostic, no store change, and no chdir; and every other failing path of
`cd` does emit a diagnostic (a failure with an empty diagnostic list only
happens on the invalid-name path). -/
theorem C10_cd_silent_invalid_name (envOk chOk : Bool) (redir : List builtin_redir)
    (st : ShState) (w0 w : String) :
    (vars_is_valid_varname w = false →
      builtin_cd envOk chOk redir st [w0, w] = ⟨-1, st, [], none⟩)
    ∧ (∀ words : List String,
        (builtin_cd envOk chOk redir st words).ret = -1 →
        (builtin_cd envOk chOk redir st words).diags = [] →
        ∃ a b, words = [a, b] ∧ vars_is_valid_varname b = false) := by
  constructor
  · intro hw
    simp [builtin_cd, hw]
  · intro words hret hdiags
    cases words with
    | nil => simp [builtin_cd, cd_finish, vars_set] at hdiags
    | cons a t1 =>
      cases t1 with
      | nil =>
        cases hh : vars_get st (some "HOME") with
        | none => simp [builtin_cd, hh] at hdiags
        | some home =>
          by_cases hz : (vars_set envOk st (some "PWD") (some home)).1 ≠ 0
          · simp [builtin_cd, hh, cd_finish, hz] at hdiags
          · simp [builtin_cd, hh, cd_finish, hz] at hret
      | cons b t2 =>
        cases t2 with
        | nil =>
          cases hvb : vars_is_valid_varname b with
          | false => exact ⟨a, b, rfl, hvb⟩
          | true =>
            by_cases hz : (vars_set envOk st (some "PWD") (some b)).1 ≠ 0
            · simp [builtin_cd, hvb, cd_finish, hz] at hdiags
            · simp [builtin_cd, hvb, cd_finish, hz] at hret
        | cons c t3 => simp [builtin_cd] at hdiags

/-- Witness for C10: `cd a-b` (invalid name) on the empty store. -/
theorem C10_witness :
    vars_is_valid_varname "a-b" = false ∧
    builtin_cd true true [] ⟨[], []⟩ ["cd", "a-b"] = ⟨-1, ⟨[], []⟩, [], none⟩ :=
  ⟨by decide, (C10_cd_silent_invalid_name true true [] ⟨[], []⟩ "cd" "a-b").1 (by decide)⟩

/-! ### claim C8 : fg error paths -/

/-- C8: `fg` with no argument and an empty job list returns -1 with the
"No jobs" diagnostic and sends no signal; and whenever the job id in play
cannot be resolved to a process group by the facade (negative pgid), `fg`
returns -1 without sending any signal — both for an explicit argument and
for the implicit first job of the list. -/
theorem C8_fg_errors (jobs : JobsFacade) (redir : List builtin_redir) (w0 : String) :
    (jobs.joblist = [] →
      builtin_fg jobs redir [w0] = ⟨-1, [(get_pseudo_fd redir 2, "No jobs\n")], none⟩)
    ∧ (∀ w1 : String, jobs.getPgid (strtol10 w1.data).1 < 0 →
        (builtin_fg jobs redir [w0, w1]).ret = -1 ∧
        (builtin_fg jobs redir [w0, w1]).killed = none)
    ∧ (∀ (j : Job) (rest : List Job), jobs.joblist = j :: rest →
        jobs.getPgid j.jid < 0 →
        (builtin_fg jobs redir [w0]).ret = -1 ∧
        (builtin_fg jobs redir [w0]).killed = none) := by
  refine ⟨?_, ?_, ?_⟩
  · intro hj
    simp [builtin_fg, hj]
  · intro w1 hpg
    by_cases hcond : (cstrHead (strtol10 w1.data).2 ≠ nulChar ∨ cstrHead w1.data = nulChar ∨
        (strtol10 w1.data).1 < 0 ∨ (strtol10 w1.data).1 > 2147483647)
    · simp [builtin_fg, hcond]
    · simp [builtin_fg, hcond, fg_act, hpg]
  · intro j rest hj hpg
    simp [builtin_fg, hj, fg_act, hpg]

/-- Witness for C8: the empty job list, and a facade that resolves no job
id, with the concrete command `fg 3`. -/
theorem C8_witness :
    (builtin_fg ⟨[], fun _ => -1, fun _ => 0, ""⟩ [] ["fg"]
      = ⟨-1, [(get_pseudo_fd [] 2, "No jobs\n")], none⟩) ∧
    ((builtin_fg ⟨[], fun _ => -1, fun _ => 0, ""⟩ [] ["fg", "3"]).ret = -1 ∧
      (builtin_fg ⟨[], fun _ => -1, fun _ => 0, ""⟩ [] ["fg", "3"]).killed = none) :=
  ⟨(C8_fg_errors ⟨[], fun _ => -1, fun _ => 0, ""⟩ [] "fg").1 rfl,
   (C8_fg_errors ⟨[], fun _ => -1, fun _ => 0, ""⟩ [] "fg").2.1 "3" (by decide)⟩
